import Mathlib

/-!
Verification development for the gemini-oauth-proxy repository.

The KeyRotator Durable Object (src/src/KeyRotator.ts) is embedded as pure
Lean functions over an explicit state record `RotSt`.  Timestamps are `Int`
(JS numbers are integer-exact in this range).  The two network effects —
the OAuth token refresh and the upstream model call — are modelled by a
deterministic oracle environment: `refreshResult` maps a refresh token
string to the outcome of a refresh call, and `upstream` maps the index of
an upstream call within one dispatch to its response.  The streaming
translator (the worker entry file) is embedded further below.
-/

namespace GeminiProxy

/-- Token buffer window before expiry, from config.ts: 5 * 60 * 1000 ms. -/
def TOKEN_BUFFER_TIME : Int := 5 * 60 * 1000

/-- Rate limit cooldown, from config.ts: 60 * 1000 ms. -/
def RATE_LIMIT_COOLDOWN : Int := 60 * 1000

/-- OAuth2 credential fields used by the rotator (types.ts); only the
refresh token and the optional project id are consulted by the code. -/
structure OAuth2Credentials where
  refresh_token : String
  project_id : Option String
deriving DecidableEq

/-- Cached access token (types.ts CachedToken). -/
structure CachedToken where
  accessToken : String
  expiryDate : Int
  accountIndex : Nat
deriving DecidableEq

/-- Per-account rate limit state (types.ts RateLimitState). -/
structure RateLimitState where
  proLimited : Bool
  flashLimited : Bool
  limitedUntil : Int
deriving DecidableEq

/-- Model class (types.ts ModelType). -/
inductive ModelType where
  | pro
  | flash
deriving DecidableEq

/-- The mutable state of the KeyRotator object: rotation cursor, RAM token
cache, rate limit map, plus the durable-storage copy of the cursor
(`persistedIndex` models the value under the "currentIndex" storage key).
The credential pool is immutable per process and passed separately. -/
structure RotSt where
  currentIndex : Nat
  tokenCache : Nat → Option CachedToken
  rateLimits : Nat → Option RateLimitState
  persistedIndex : Option Nat

/-- State of a freshly constructed KeyRotator before any storage restore:
currentIndex = 0, empty caches, nothing persisted yet. -/
def initialRotSt : RotSt :=
  { currentIndex := 0, tokenCache := fun _ => none,
    rateLimits := fun _ => none, persistedIndex := none }

/-- Deterministic oracle for the token refresh network call.  `clientConfigured`
models whether OAUTH_CLIENT_ID / OAUTH_CLIENT_SECRET are set to
non-placeholder values; `refreshResult` maps a refresh token to
(access_token, expires_in) on success, or none for any refresh failure
(non-2xx response or network error). -/
structure OracleEnv where
  clientConfigured : Bool
  refreshResult : String → Option (String × Int)

/-- KeyRotator.refreshToken: placeholder client credentials fail immediately;
otherwise the refresh exchange yields expiryDate = now + expires_in * 1000. -/
def refreshToken (env : OracleEnv) (refreshTok : String) (now : Int) :
    Option (String × Int) :=
  if env.clientConfigured = false then none
  else
    match env.refreshResult refreshTok with
    | none => none
    | some (tok, expiresIn) => some (tok, now + expiresIn * 1000)

/-- The refresh path of KeyRotator.getOrRefreshToken (reached when no cached
token is valid): look up the credential, refresh, and on success overwrite
this account's cache entry. -/
def refreshAndCache (env : OracleEnv) (creds : List OAuth2Credentials)
    (st : RotSt) (accountIndex : Nat) (now : Int) : Option String × RotSt :=
  match creds.get? accountIndex with
  | none => (none, st)
  | some cred =>
    match refreshToken env cred.refresh_token now with
    | some (tok, expiry) =>
        (some tok,
          { st with tokenCache := fun j =>
              if j = accountIndex then
                some { accessToken := tok, expiryDate := expiry, accountIndex := accountIndex }
              else st.tokenCache j })
    | none => (none, st)

/-- KeyRotator.getOrRefreshToken: serve the RAM-cached token if it is outside
the buffer window; otherwise refresh and overwrite the cache entry. -/
def getOrRefreshToken (env : OracleEnv) (creds : List OAuth2Credentials)
    (st : RotSt) (accountIndex : Nat) (now : Int) : Option String × RotSt :=
  match st.tokenCache accountIndex with
  | some cached =>
      if cached.expiryDate - TOKEN_BUFFER_TIME > now then (some cached.accessToken, st)
      else refreshAndCache env creds st accountIndex now
  | none => refreshAndCache env creds st accountIndex now

/-- The class-specific limited flag: `modelType === "pro" ? rl.proLimited :
rl.flashLimited`. -/
def flagOf (mt : ModelType) (rl : RateLimitState) : Bool :=
  match mt with
  | .pro => rl.proLimited
  | .flash => rl.flashLimited

/-- The rate-limit consultation performed per candidate in
KeyRotator.getValidToken: returns (skip?, updated state).  A live limit for
the requested class skips the account; an expired entry is lazily deleted. -/
def consultLimit (st : RotSt) (idx : Nat) (mt : ModelType) (now : Int) :
    Bool × RotSt :=
  match st.rateLimits idx with
  | none => (false, st)
  | some rl =>
    if flagOf mt rl ∧ now < rl.limitedUntil then (true, st)
    else if now ≥ rl.limitedUntil then
      (false, { st with rateLimits := fun j => if j = idx then none else st.rateLimits j })
    else (false, st)

/-- The pure consultation predicate (no eviction): the account is currently
limited for the class iff its entry's class flag is set and now is before
limitedUntil. -/
def isLimitedQ (st : RotSt) (idx : Nat) (mt : ModelType) (now : Int) : Bool :=
  match st.rateLimits idx with
  | none => false
  | some rl => flagOf mt rl && decide (now < rl.limitedUntil)

/-- Successful selection result of getValidToken. -/
structure TokenSuccess where
  token : String
  accountIndex : Nat
  projectId : String
deriving DecidableEq

/-- Error classification of getValidToken. -/
inductive TokenErrorType where
  | no_credentials
  | all_rate_limited
  | all_token_refresh_failed
deriving DecidableEq

/-- Outcome of the probing loop in getValidToken, with the two tallies. -/
structure ProbeOutcome where
  success : Option TokenSuccess
  st : RotSt
  rateLimitedCount : Nat
  tokenRefreshFailedCount : Nat

/-- The probing loop of KeyRotator.getValidToken: for each attempt,
idx = (currentIndex + attempt) % totalAccounts; consult the rate limit,
then try to obtain a token; on success with attempt > 0 advance and persist
the cursor. `c0` is the currentIndex read at loop entry (it is not written
during the loop). -/
def tryAccounts (env : OracleEnv) (creds : List OAuth2Credentials)
    (mt : ModelType) (now : Int) (c0 : Nat) :
    List Nat → RotSt → Nat → Nat → ProbeOutcome
  | [], st, rlc, trc => ⟨none, st, rlc, trc⟩
  | attempt :: rest, st, rlc, trc =>
    let idx := (c0 + attempt) % creds.length
    let probe := consultLimit st idx mt now
    if probe.1 then tryAccounts env creds mt now c0 rest probe.2 (rlc + 1) trc
    else
      let tok := getOrRefreshToken env creds probe.2 idx now
      match tok.1 with
      | some t =>
        let st3 := if 0 < attempt then
            { tok.2 with currentIndex := idx, persistedIndex := some idx }
          else tok.2
        ⟨some ⟨t, idx, (creds.get? idx).elim "" (fun c => c.project_id.getD "")⟩, st3, rlc, trc⟩
      | none => tryAccounts env creds mt now c0 rest tok.2 rlc (trc + 1)

/-- KeyRotator.getValidToken: empty pool reports no_credentials; otherwise
probe all accounts from the current cursor and classify exhaustion:
all rate-limited when every probe was skipped for rate limiting, otherwise
all_token_refresh_failed when at least one refresh failed. -/
def getValidToken (env : OracleEnv) (creds : List OAuth2Credentials)
    (st : RotSt) (mt : ModelType) (now : Int) :
    (TokenSuccess ⊕ TokenErrorType) × RotSt :=
  let n := creds.length
  if n = 0 then (Sum.inr .no_credentials, st)
  else
    let out := tryAccounts env creds mt now st.currentIndex (List.range n) st 0 0
    match out.success with
    | some s => (Sum.inl s, out.st)
    | none =>
      if out.rateLimitedCount = n then (Sum.inr .all_rate_limited, out.st)
      else if 0 < out.tokenRefreshFailedCount then
        (Sum.inr .all_token_refresh_failed, out.st)
      else (Sum.inr .all_rate_limited, out.st)

/-- The default entry created on first rate-limit report for an account. -/
def defaultRateLimitState : RateLimitState :=
  { proLimited := false, flashLimited := false, limitedUntil := 0 }

/-- KeyRotator.handleRateLimitReport: set the class flag, refresh
limitedUntil = now + cooldown, store the entry, rotate the cursor to
(accountIndex + 1) % poolSize and persist it.  This model is meaningful for
a non-empty pool; the behaviour of the cursor arithmetic when the pool is
empty (JS division by zero yielding NaN) is captured by `nextCursorJS`. -/
def handleRateLimitReport (creds : List OAuth2Credentials) (st : RotSt)
    (accountIndex : Nat) (mt : ModelType) (now : Int) : RotSt :=
  let existing := (st.rateLimits accountIndex).getD defaultRateLimitState
  let entry :=
    match mt with
    | .pro => { existing with proLimited := true, limitedUntil := now + RATE_LIMIT_COOLDOWN }
    | .flash => { existing with flashLimited := true, limitedUntil := now + RATE_LIMIT_COOLDOWN }
  let newIndex := (accountIndex + 1) % creds.length
  { st with
    rateLimits := fun j => if j = accountIndex then some entry else st.rateLimits j,
    currentIndex := newIndex,
    persistedIndex := some newIndex }

/-- The cursor update `(accountIndex + 1) % this.credentials.length` of
handleRateLimitReport with JavaScript number semantics: modulo by zero
yields NaN, modelled as `none`; for a non-zero pool the result is the
ordinary remainder. -/
def nextCursorJS (accountIndex poolSize : Nat) : Option Nat :=
  if poolSize = 0 then none else some ((accountIndex + 1) % poolSize)

/-- An upstream HTTP response, abstracted to status and body. -/
structure UpResp where
  status : Int
  body : String
deriving DecidableEq

/-- Result of one dispatch through KeyRotator.handleProxy: either an
upstream response passed through to the caller, or a structured selection
error with its mapped HTTP status. -/
inductive ProxyResult where
  | upstream (r : UpResp)
  | selectionError (e : TokenErrorType) (httpStatus : Int)
deriving DecidableEq

/-- HTTP status used for a selection error:
all_token_refresh_failed maps to 500, the others to 429. -/
def errStatus (e : TokenErrorType) : Int :=
  match e with
  | .all_token_refresh_failed => 500
  | _ => 429

/-- String.prototype.includes: `pat` occurs as a contiguous substring. -/
def containsSub (pat : List Char) : List Char → Bool
  | [] => pat.isEmpty
  | c :: rest => pat.isPrefixOf (c :: rest) || containsSub pat rest

/-- modelId.includes("pro") classifying the model id into a class. -/
def modelTypeOf (modelId : String) : ModelType :=
  if containsSub "pro".toList modelId.toList then .pro else .flash

/-- Oracle environment for one dispatch: the refresh oracle plus the
responses of the upstream model API, indexed by the position of the call
within this dispatch (0 = first call, 1 = retry). -/
structure ProxyEnv extends OracleEnv where
  upstream : Nat → UpResp

/-- KeyRotator.handleProxy: select an account, issue the upstream call, and
apply the failover policy — on 429/503 report the rate limit, reselect and
retry once, returning the retry response whatever its status (or the
selection failure); on 401 evict only this account's cached token, refresh
for the same account and retry once, falling back to the original response
when the refresh fails.  The third component records the bearer tokens of
the upstream calls made during this dispatch, in order. -/
def handleProxy (env : ProxyEnv) (creds : List OAuth2Credentials)
    (st : RotSt) (modelId : String) (now : Int) :
    ProxyResult × RotSt × List String :=
  let mt := modelTypeOf modelId
  match getValidToken env.toOracleEnv creds st mt now with
  | (Sum.inr e, st1) => (.selectionError e (errStatus e), st1, [])
  | (Sum.inl s, st1) =>
    let resp := env.upstream 0
    if resp.status = 429 ∨ resp.status = 503 then
      let st2 := handleRateLimitReport creds st1 s.accountIndex mt now
      match getValidToken env.toOracleEnv creds st2 mt now with
      | (Sum.inl s2, st3) => (.upstream (env.upstream 1), st3, [s.token, s2.token])
      | (Sum.inr e, st3) => (.selectionError e (errStatus e), st3, [s.token])
    else if resp.status = 401 then
      let st2 := { st1 with tokenCache := fun j =>
        if j = s.accountIndex then none else st1.tokenCache j }
      match getOrRefreshToken env.toOracleEnv creds st2 s.accountIndex now with
      | (some fresh, st3) => (.upstream (env.upstream 1), st3, [s.token, fresh])
      | (none, st3) => (.upstream resp, st3, [s.token])
    else (.upstream resp, st1, [s.token])

/-- Reachable states of one KeyRotator deployment over a fixed credential
pool: the freshly constructed object, plus the state transitions of
selection, rate-limit reports (with an arbitrary reported index, as it
comes from the request body), proxy dispatches, direct token fetches, and a
process restart that restores the persisted cursor (loadState: stored value
if present, else the field initializer 0) and starts with empty RAM caches. -/
inductive Reachable (creds : List OAuth2Credentials) : RotSt → Prop where
  | init : Reachable creds initialRotSt
  | select {st} (env : OracleEnv) (mt : ModelType) (now : Int) :
      Reachable creds st → Reachable creds (getValidToken env creds st mt now).2
  | report {st} (i : Nat) (mt : ModelType) (now : Int) :
      Reachable creds st → Reachable creds (handleRateLimitReport creds st i mt now)
  | proxy {st} (env : ProxyEnv) (modelId : String) (now : Int) :
      Reachable creds st → Reachable creds (handleProxy env creds st modelId now).2.1
  | getTok {st} (env : OracleEnv) (i : Nat) (now : Int) :
      Reachable creds st → Reachable creds (getOrRefreshToken env creds st i now).2
  | restart {st} :
      Reachable creds st →
      Reachable creds
        { currentIndex := st.persistedIndex.getD 0,
          tokenCache := fun _ => none,
          rateLimits := fun _ => none,
          persistedIndex := st.persistedIndex }

/-! ## Cursor range invariant (C1) -/

/-- The cursor invariant: the in-RAM rotation cursor and any persisted copy
are in [0, poolSize). -/
def cursorOk (n : Nat) (st : RotSt) : Prop :=
  st.currentIndex < n ∧ ∀ v, st.persistedIndex = some v → v < n

theorem consultLimit_currentIndex (st : RotSt) (idx : Nat) (mt : ModelType) (now : Int) :
    (consultLimit st idx mt now).2.currentIndex = st.currentIndex := by
  unfold consultLimit
  split
  · rfl
  · split
    · rfl
    · split <;> rfl

theorem consultLimit_persistedIndex (st : RotSt) (idx : Nat) (mt : ModelType) (now : Int) :
    (consultLimit st idx mt now).2.persistedIndex = st.persistedIndex := by
  unfold consultLimit
  split
  · rfl
  · split
    · rfl
    · split <;> rfl

theorem refreshAndCache_currentIndex (env : OracleEnv) (creds : List OAuth2Credentials)
    (st : RotSt) (i : Nat) (now : Int) :
    (refreshAndCache env creds st i now).2.currentIndex = st.currentIndex := by
  unfold refreshAndCache
  split
  · rfl
  · split <;> rfl

theorem refreshAndCache_persistedIndex (env : OracleEnv) (creds : List OAuth2Credentials)
    (st : RotSt) (i : Nat) (now : Int) :
    (refreshAndCache env creds st i now).2.persistedIndex = st.persistedIndex := by
  unfold refreshAndCache
  split
  · rfl
  · split <;> rfl

theorem getOrRefreshToken_currentIndex (env : OracleEnv) (creds : List OAuth2Credentials)
    (st : RotSt) (i : Nat) (now : Int) :
    (getOrRefreshToken env creds st i now).2.currentIndex = st.currentIndex := by
  unfold getOrRefreshToken
  split
  · split
    · rfl
    · exact refreshAndCache_currentIndex ..
  · exact refreshAndCache_currentIndex ..

theorem getOrRefreshToken_persistedIndex (env : OracleEnv) (creds : List OAuth2Credentials)
    (st : RotSt) (i : Nat) (now : Int) :
    (getOrRefreshToken env creds st i now).2.persistedIndex = st.persistedIndex := by
  unfold getOrRefreshToken
  split
  · split
    · rfl
    · exact refreshAndCache_persistedIndex ..
  · exact refreshAndCache_persistedIndex ..

theorem cursorOk_of_eqs {n : Nat} {a b : RotSt}
    (h1 : a.currentIndex = b.currentIndex) (h2 : a.persistedIndex = b.persistedIndex)
    (h : cursorOk n b) : cursorOk n a := by
  unfold cursorOk at h ⊢
  rw [h1, h2]
  exact h

theorem tryAccounts_cursorOk (env : OracleEnv) (creds : List OAuth2Credentials)
    (mt : ModelType) (now : Int) (c0 : Nat) (hn : 0 < creds.length) :
    ∀ (attempts : List Nat) (st : RotSt) (rlc trc : Nat), cursorOk creds.length st →
      cursorOk creds.length (tryAccounts env creds mt now c0 attempts st rlc trc).st := by
  intro attempts
  induction attempts with
  | nil => intro st rlc trc h; exact h
  | cons attempt rest ih =>
    intro st rlc trc h
    simp only [tryAccounts]
    split
    · exact ih _ _ _ (cursorOk_of_eqs (consultLimit_currentIndex ..) (consultLimit_persistedIndex ..) h)
    · have hmid : cursorOk creds.length
          (getOrRefreshToken env creds (consultLimit st ((c0 + attempt) % creds.length) mt now).2
            ((c0 + attempt) % creds.length) now).2 :=
        cursorOk_of_eqs (getOrRefreshToken_currentIndex ..) (getOrRefreshToken_persistedIndex ..)
          (cursorOk_of_eqs (consultLimit_currentIndex ..) (consultLimit_persistedIndex ..) h)
      split
      · split
        · refine ⟨Nat.mod_lt _ hn, ?_⟩
          intro v hv
          cases hv
          exact Nat.mod_lt _ hn
        · exact hmid
      · exact ih _ _ _ hmid

theorem getValidToken_cursorOk (env : OracleEnv) (creds : List OAuth2Credentials)
    (st : RotSt) (mt : ModelType) (now : Int) (h : cursorOk creds.length st) :
    cursorOk creds.length (getValidToken env creds st mt now).2 := by
  unfold getValidToken
  dsimp only
  split
  · exact h
  · have hn : 0 < creds.length := Nat.pos_of_ne_zero (by assumption)
    have hout := tryAccounts_cursorOk env creds mt now st.currentIndex hn
      (List.range creds.length) st 0 0 h
    split
    · exact hout
    · split
      · exact hout
      · split
        · exact hout
        · exact hout

theorem handleRateLimitReport_cursorOk (creds : List OAuth2Credentials) (st : RotSt)
    (i : Nat) (mt : ModelType) (now : Int) (hn : 0 < creds.length) :
    cursorOk creds.length (handleRateLimitReport creds st i mt now) := by
  refine ⟨Nat.mod_lt _ hn, ?_⟩
  intro v hv
  cases hv
  exact Nat.mod_lt _ hn

theorem getValidToken_pool_nonempty {env : OracleEnv} {creds : List OAuth2Credentials}
    {st : RotSt} {mt : ModelType} {now : Int} {s : TokenSuccess} {st1 : RotSt}
    (h : getValidToken env creds st mt now = (Sum.inl s, st1)) : 0 < creds.length := by
  by_contra hc
  have h0 : creds.length = 0 := by omega
  unfold getValidToken at h
  rw [if_pos h0] at h
  exact absurd (congrArg Prod.fst h) (by simp)

theorem handleProxy_cursorOk (env : ProxyEnv) (creds : List OAuth2Credentials)
    (st : RotSt) (modelId : String) (now : Int) (h : cursorOk creds.length st) :
    cursorOk creds.length (handleProxy env creds st modelId now).2.1 := by
  unfold handleProxy
  dsimp only
  split
  next e st1 heq =>
    have := getValidToken_cursorOk env.toOracleEnv creds st (modelTypeOf modelId) now h
    rw [heq] at this
    exact this
  next s st1 heq =>
    have hn : 0 < creds.length := getValidToken_pool_nonempty heq
    have h1 : cursorOk creds.length st1 := by
      have := getValidToken_cursorOk env.toOracleEnv creds st (modelTypeOf modelId) now h
      rw [heq] at this
      exact this
    split
    · split
      next s2 st3 heq2 =>
        have := getValidToken_cursorOk env.toOracleEnv creds
          (handleRateLimitReport creds st1 s.accountIndex (modelTypeOf modelId) now)
          (modelTypeOf modelId) now
          (handleRateLimitReport_cursorOk creds st1 s.accountIndex (modelTypeOf modelId) now hn)
        rw [heq2] at this
        exact this
      next e st3 heq2 =>
        have := getValidToken_cursorOk env.toOracleEnv creds
          (handleRateLimitReport creds st1 s.accountIndex (modelTypeOf modelId) now)
          (modelTypeOf modelId) now
          (handleRateLimitReport_cursorOk creds st1 s.accountIndex (modelTypeOf modelId) now hn)
        rw [heq2] at this
        exact this
    · split
      · split
        next fresh st3 heq2 =>
          have h3 := cursorOk_of_eqs
            (getOrRefreshToken_currentIndex env.toOracleEnv creds
              { st1 with tokenCache := fun j => if j = s.accountIndex then none else st1.tokenCache j }
              s.accountIndex now)
            (getOrRefreshToken_persistedIndex env.toOracleEnv creds
              { st1 with tokenCache := fun j => if j = s.accountIndex then none else st1.tokenCache j }
              s.accountIndex now)
            h1
          rw [heq2] at h3
          exact h3
        next st3 heq2 =>
          have h3 := cursorOk_of_eqs
            (getOrRefreshToken_currentIndex env.toOracleEnv creds
              { st1 with tokenCache := fun j => if j = s.accountIndex then none else st1.tokenCache j }
              s.accountIndex now)
            (getOrRefreshToken_persistedIndex env.toOracleEnv creds
              { st1 with tokenCache := fun j => if j = s.accountIndex then none else st1.tokenCache j }
              s.accountIndex now)
            h1
          rw [heq2] at h3
          exact h3
      · exact h1

/-- C1: in every reachable state of the rotator over a non-empty credential
pool, the rotation cursor currentIndex lies in [0, poolSize), and so does
every value persisted for it — hence in particular after restoring the
persisted cursor at startup, after a successful selection (which advances
the cursor to the chosen index), and after any rate-limit report (which
rotates it to (accountIndex + 1) mod poolSize). -/
theorem c1_currentIndex_in_range {creds : List OAuth2Credentials} {st : RotSt}
    (hn : 0 < creds.length) (hr : Reachable creds st) :
    st.currentIndex < creds.length ∧
      ∀ v, st.persistedIndex = some v → v < creds.length := by
  have : cursorOk creds.length st := by
    induction hr with
    | init =>
      refine ⟨hn, ?_⟩
      intro v hv
      exact absurd hv (by simp [initialRotSt])
    | select env mt now _ ih => exact getValidToken_cursorOk _ _ _ _ _ ih
    | report i mt now _ _ => exact handleRateLimitReport_cursorOk _ _ _ _ _ hn
    | proxy env modelId now _ ih => exact handleProxy_cursorOk _ _ _ _ _ ih
    | getTok env i now _ ih =>
      exact cursorOk_of_eqs (getOrRefreshToken_currentIndex ..)
        (getOrRefreshToken_persistedIndex ..) ih
    | restart _ ih =>
      refine ⟨?_, ih.2⟩
      cases hp : RotSt.persistedIndex _ with
      | none => simpa [hp] using hn
      | some v => simpa [hp] using ih.2 v hp
  exact this

/-- Concrete pool of three credentials used by several witnesses. -/
def creds3w : List OAuth2Credentials :=
  [⟨"r1", none⟩, ⟨"r2", none⟩, ⟨"r3", none⟩]

/-- Witness for C1: the invariant holds in the initial state of a pool of
three credentials. -/
theorem c1_witness :
    initialRotSt.currentIndex < creds3w.length ∧
      ∀ v, initialRotSt.persistedIndex = some v → v < creds3w.length :=
  c1_currentIndex_in_range (by decide) Reachable.init

/-! ## C10: the cursor update of handleRateLimitReport and its division guard -/

/-- C10: the cursor update of handleRateLimitReport is only well-defined for
a non-empty pool.  For poolSize > 0 the JS expression
(accountIndex + 1) % poolSize — for any reported accountIndex, even one
outside [0, poolSize) — yields exactly the integer the report stores as the
new cursor, and that integer is in [0, poolSize); for an empty pool the
modulo-by-zero is unguarded and yields NaN (no integer), so poolSize > 0 is
a required precondition for the update branch. -/
theorem c10_cursor_update_guard (creds : List OAuth2Credentials)
    (st : RotSt) (i : Nat) (mt : ModelType) (now : Int) :
    (0 < creds.length →
      nextCursorJS i creds.length =
        some (handleRateLimitReport creds st i mt now).currentIndex ∧
      (handleRateLimitReport creds st i mt now).currentIndex < creds.length) ∧
    (creds.length = 0 → nextCursorJS i creds.length = none) := by
  constructor
  · intro hn
    have hcur : (handleRateLimitReport creds st i mt now).currentIndex =
        (i + 1) % creds.length := by
      unfold handleRateLimitReport
      cases mt <;> rfl
    constructor
    · unfold nextCursorJS
      rw [if_neg (by omega), hcur]
    · rw [hcur]
      exact Nat.mod_lt _ hn
  · intro h0
    unfold nextCursorJS
    rw [if_pos h0]

/-- Witness for C10 at accountIndex 7: a pool of three credentials stores
cursor (7+1) mod 3 = 2, and an empty pool yields NaN. -/
theorem c10_witness :
    (nextCursorJS 7 creds3w.length =
        some (handleRateLimitReport creds3w initialRotSt 7 .flash 0).currentIndex ∧
      (handleRateLimitReport creds3w initialRotSt 7 .flash 0).currentIndex < creds3w.length) ∧
    nextCursorJS 7 ([] : List OAuth2Credentials).length = none :=
  ⟨(c10_cursor_update_guard creds3w initialRotSt 7 .flash 0).1 (by decide),
   (c10_cursor_update_guard ([] : List OAuth2Credentials) initialRotSt 7 .flash 0).2 rfl⟩

/-! ## C8: rate limit window semantics and lazy expiry -/

/-- After a report, account i's entry has the reported class flag set and
limitedUntil = t + cooldown. -/
theorem handleRateLimitReport_entry (creds : List OAuth2Credentials) (st : RotSt)
    (i : Nat) (mt : ModelType) (t : Int) :
    ∃ entry, (handleRateLimitReport creds st i mt t).rateLimits i = some entry ∧
      flagOf mt entry = true ∧ entry.limitedUntil = t + RATE_LIMIT_COOLDOWN := by
  cases mt with
  | pro =>
    exact ⟨{ proLimited := true, flashLimited := ((st.rateLimits i).getD defaultRateLimitState).flashLimited, limitedUntil := t + RATE_LIMIT_COOLDOWN }, by simp [handleRateLimitReport], rfl, rfl⟩
  | flash =>
    exact ⟨{ proLimited := ((st.rateLimits i).getD defaultRateLimitState).proLimited, flashLimited := true, limitedUntil := t + RATE_LIMIT_COOLDOWN }, by simp [handleRateLimitReport], rfl, rfl⟩

/-- C8: after a rate-limit report for account i and class mt at time t, the
account is limited for that class at every instant in [t, t + cooldown) and
unlimited from t + cooldown on; no manual reset happens — the next
consultation after expiry lazily deletes the entry and does not skip the
account. -/
theorem c8_rate_limit_window (creds : List OAuth2Credentials) (st : RotSt)
    (i : Nat) (mt : ModelType) (t now : Int) :
    (t ≤ now → now < t + RATE_LIMIT_COOLDOWN →
      isLimitedQ (handleRateLimitReport creds st i mt t) i mt now = true) ∧
    (t + RATE_LIMIT_COOLDOWN ≤ now →
      isLimitedQ (handleRateLimitReport creds st i mt t) i mt now = false) ∧
    (t + RATE_LIMIT_COOLDOWN ≤ now →
      (consultLimit (handleRateLimitReport creds st i mt t) i mt now).1 = false ∧
      (consultLimit (handleRateLimitReport creds st i mt t) i mt now).2.rateLimits i = none) := by
  obtain ⟨entry, he, hf, hu⟩ := handleRateLimitReport_entry creds st i mt t
  refine ⟨?_, ?_, ?_⟩
  · intro h1 h2
    unfold isLimitedQ
    rw [he]
    dsimp only
    rw [hf, hu]
    simpa using h2
  · intro h1
    unfold isLimitedQ
    rw [he]
    dsimp only
    rw [hf, hu]
    simp only [Bool.true_and, decide_eq_false_iff_not]
    exact not_lt.mpr h1
  · intro h1
    unfold consultLimit
    rw [he]
    dsimp only
    rw [if_neg (fun hcon => absurd (hu ▸ hcon.2) (not_lt.mpr h1)),
      if_pos (show now ≥ entry.limitedUntil by rw [hu]; exact h1)]
    exact ⟨rfl, by simp⟩

/-- Witness for C8: report for account 0, class pro, at t = 1000; limited at
now = 30000, unlimited at now = 61000, where consultation deletes the
entry. -/
theorem c8_witness :
    isLimitedQ (handleRateLimitReport creds3w initialRotSt 0 .pro 1000) 0 .pro 30000 = true ∧
    isLimitedQ (handleRateLimitReport creds3w initialRotSt 0 .pro 1000) 0 .pro 61000 = false ∧
    (consultLimit (handleRateLimitReport creds3w initialRotSt 0 .pro 1000) 0 .pro 61000).2.rateLimits 0
      = none :=
  ⟨(c8_rate_limit_window creds3w initialRotSt 0 .pro 1000 30000).1 (by decide) (by decide),
   (c8_rate_limit_window creds3w initialRotSt 0 .pro 1000 61000).2.1 (by decide),
   ((c8_rate_limit_window creds3w initialRotSt 0 .pro 1000 61000).2.2 (by decide)).2⟩

/-! ## C3: the buffer-window guarantee of getOrRefreshToken -/

/-- Pool of one credential used by the C3 scenario. -/
def credsC3 : List OAuth2Credentials := [⟨"rt0", some "proj0"⟩]

/-- Refresh oracle used by the C3 scenario: the refresh for "rt0" succeeds
with expires_in = 10 seconds — far less than the 5-minute buffer window. -/
def envC3 : OracleEnv :=
  ⟨true, fun s => if s = "rt0" then some ("tok0", 10) else none⟩

/-- Counterexample to C3: at now = 0 the refresh succeeds with
expires_in = 10, so getOrRefreshToken returns the token "tok0" and caches
expiryDate = 10000, yet 10000 − bufferWindow > 0 is false — a just-refreshed
token is returned even though its expiry lies inside the buffer window,
contradicting the claim for the refresh path. -/
theorem c3_counterexample :
    (getOrRefreshToken envC3 credsC3 initialRotSt 0 0).1 = some "tok0" ∧
    (getOrRefreshToken envC3 credsC3 initialRotSt 0 0).2.tokenCache 0 =
      some { accessToken := "tok0", expiryDate := 10000, accountIndex := 0 } ∧
    ¬ ((10000 : Int) - TOKEN_BUFFER_TIME > 0) :=
  ⟨by decide, by decide, by decide⟩

/-- C3 as amended: when getOrRefreshToken returns a token, the token either
came from the cache — and then its expiryDate is outside the buffer window
(expiryDate − bufferWindow > now) and the state is unchanged — or it was
just obtained from a refresh, and then its cached expiryDate equals
now + expires_in · 1000 with no lower bound: the buffer-window guarantee
holds for the refresh path only when expires_in · 1000 exceeds the buffer
window. -/
theorem c3_amended_buffer_guarantee (env : OracleEnv) (creds : List OAuth2Credentials)
    (st : RotSt) (i : Nat) (now : Int) (tok : String) (st' : RotSt)
    (h : getOrRefreshToken env creds st i now = (some tok, st')) :
    ∃ c, st'.tokenCache i = some c ∧ c.accessToken = tok ∧
      ((st.tokenCache i = some c ∧ st' = st ∧ c.expiryDate - TOKEN_BUFFER_TIME > now) ∨
       (∃ cred ei, creds.get? i = some cred ∧ env.clientConfigured = true ∧
          env.refreshResult cred.refresh_token = some (tok, ei) ∧
          c.expiryDate = now + ei * 1000)) := by
  have refreshCase : ∀ st0 : RotSt,
      refreshAndCache env creds st0 i now = (some tok, st') →
      ∃ c, st'.tokenCache i = some c ∧ c.accessToken = tok ∧
        (∃ cred ei, creds.get? i = some cred ∧ env.clientConfigured = true ∧
          env.refreshResult cred.refresh_token = some (tok, ei) ∧
          c.expiryDate = now + ei * 1000) := by
    intro st0 hrc
    unfold refreshAndCache at hrc
    cases hg : creds.get? i with
    | none =>
      rw [hg] at hrc
      exact absurd (congrArg Prod.fst hrc) (by simp)
    | some cred =>
      rw [hg] at hrc
      dsimp only at hrc
      cases hrt : refreshToken env cred.refresh_token now with
      | none =>
        rw [hrt] at hrc
        exact absurd (congrArg Prod.fst hrc) (by simp)
      | some p =>
        obtain ⟨tok0, expiry⟩ := p
        rw [hrt] at hrc
        dsimp only at hrc
        rw [Prod.mk.injEq] at hrc
        obtain ⟨h1, h2⟩ := hrc
        have h1x : tok0 = tok := by injection h1
        subst h1x
        unfold refreshToken at hrt
        cases hcl : env.clientConfigured with
        | false =>
          rw [hcl] at hrt
          simp at hrt
        | true =>
          rw [hcl] at hrt
          rw [if_neg (fun hh => Bool.noConfusion hh)] at hrt
          cases hrr : env.refreshResult cred.refresh_token with
          | none =>
            rw [hrr] at hrt
            exact absurd hrt (by simp)
          | some q =>
            obtain ⟨tokr, ei⟩ := q
            rw [hrr] at hrt
            have hq : tokr = tok0 ∧ now + ei * 1000 = expiry := by
              have hx := hrt
              simp only [Option.some.injEq, Prod.mk.injEq] at hx
              exact hx
            obtain ⟨hq1, hq2⟩ := hq
            subst hq1
            refine ⟨{ accessToken := tokr, expiryDate := expiry, accountIndex := i },
              ?_, rfl, ⟨cred, ei, rfl, rfl, hrr, hq2.symm⟩⟩
            rw [← h2]
            simp
  unfold getOrRefreshToken at h
  cases hc : st.tokenCache i with
  | some cached =>
    rw [hc] at h
    dsimp only at h
    by_cases hv : cached.expiryDate - TOKEN_BUFFER_TIME > now
    · rw [if_pos hv] at h
      have h1 : cached.accessToken = tok := by
        have hx := congrArg Prod.fst h
        simpa using hx
      have h2 : st' = st := (congrArg Prod.snd h).symm
      exact ⟨cached, by rw [h2]; exact hc, h1, Or.inl ⟨rfl, h2, hv⟩⟩
    · rw [if_neg hv] at h
      obtain ⟨c, hcc, hca, hrest⟩ := refreshCase st h
      exact ⟨c, hcc, hca, Or.inr hrest⟩
  | none =>
    rw [hc] at h
    dsimp only at h
    obtain ⟨c, hcc, hca, hrest⟩ := refreshCase st h
    exact ⟨c, hcc, hca, Or.inr hrest⟩

/-- A state whose account 0 has a cached token valid far beyond the buffer
window, used by the C3 amended witness. -/
def stHitW : RotSt :=
  { initialRotSt with tokenCache := fun j =>
      if j = 0 then some { accessToken := "ct", expiryDate := 1000000000, accountIndex := 0 }
      else none }

/-- Witness for C3 amended: a cache hit at now = 0 returns the cached token
through the cached branch of the disjunction. -/
theorem c3_amended_witness :
    ∃ c, stHitW.tokenCache 0 = some c ∧ c.accessToken = "ct" ∧
      ((stHitW.tokenCache 0 = some c ∧ stHitW = stHitW ∧
          c.expiryDate - TOKEN_BUFFER_TIME > 0) ∨
       (∃ cred ei, credsC3.get? 0 = some cred ∧ envC3.clientConfigured = true ∧
          envC3.refreshResult cred.refresh_token = some ("ct", ei) ∧
          c.expiryDate = 0 + ei * 1000)) :=
  c3_amended_buffer_guarantee envC3 credsC3 stHitW 0 0 "ct" stHitW rfl

/-! ## C4: exhaustion classification of getValidToken -/

theorem tryAccounts_counts (env : OracleEnv) (creds : List OAuth2Credentials)
    (mt : ModelType) (now : Int) (c0 : Nat) :
    ∀ (attempts : List Nat) (st : RotSt) (rlc trc : Nat),
      (tryAccounts env creds mt now c0 attempts st rlc trc).success = none →
      (tryAccounts env creds mt now c0 attempts st rlc trc).rateLimitedCount +
        (tryAccounts env creds mt now c0 attempts st rlc trc).tokenRefreshFailedCount =
        rlc + trc + attempts.length := by
  intro attempts
  induction attempts with
  | nil => intro st rlc trc _; simp [tryAccounts]
  | cons a rest ih =>
    intro st rlc trc
    simp only [tryAccounts]
    split
    · intro h
      have hh := ih _ _ _ h
      simp only [List.length_cons]
      omega
    · split
      · intro h
        simp at h
      · intro h
        have hh := ih _ _ _ h
        simp only [List.length_cons]
        omega

/-- C4: when getValidToken exhausts the pool without returning an account,
the classification is no_credentials exactly for an empty pool; otherwise
all_rate_limited exactly when every probed account was skipped for rate
limiting, and all_token_refresh_failed exactly when at least one account
failed token refresh — so a mixed outcome is reported as
all_token_refresh_failed, never all_rate_limited (the two tallies always
sum to the pool size on exhaustion, so the conditions are exclusive). -/
theorem c4_exhaustion_classification (env : OracleEnv)
    (creds : List OAuth2Credentials) (st : RotSt) (mt : ModelType) (now : Int)
    (e : TokenErrorType) (st' : RotSt)
    (h : getValidToken env creds st mt now = (Sum.inr e, st')) :
    (e = .no_credentials ↔ creds.length = 0) ∧
    (0 < creds.length →
      (tryAccounts env creds mt now st.currentIndex (List.range creds.length) st 0 0).success = none ∧
      (tryAccounts env creds mt now st.currentIndex (List.range creds.length) st 0 0).rateLimitedCount +
        (tryAccounts env creds mt now st.currentIndex (List.range creds.length) st 0 0).tokenRefreshFailedCount
        = creds.length ∧
      (e = .all_rate_limited ↔
        (tryAccounts env creds mt now st.currentIndex (List.range creds.length) st 0 0).rateLimitedCount
          = creds.length) ∧
      (e = .all_token_refresh_failed ↔
        0 < (tryAccounts env creds mt now st.currentIndex (List.range creds.length) st 0 0).tokenRefreshFailedCount)) := by
  unfold getValidToken at h
  dsimp only at h
  by_cases hn : creds.length = 0
  · rw [if_pos hn] at h
    have he : e = .no_credentials := by
      have hx := congrArg Prod.fst h
      simp at hx
      exact hx.symm
    subst he
    exact ⟨by simp [hn], fun hlt => absurd hn (by omega)⟩
  · rw [if_neg hn] at h
    cases hs : (tryAccounts env creds mt now st.currentIndex (List.range creds.length) st 0 0).success with
    | some s =>
      rw [hs] at h
      exact absurd (congrArg Prod.fst h) (by simp)
    | none =>
      rw [hs] at h
      dsimp only at h
      have hsum := tryAccounts_counts env creds mt now st.currentIndex
        (List.range creds.length) st 0 0 hs
      rw [List.length_range] at hsum
      by_cases hr : (tryAccounts env creds mt now st.currentIndex (List.range creds.length) st 0 0).rateLimitedCount = creds.length
      · rw [if_pos hr] at h
        have he : e = .all_rate_limited := by
          have hx := congrArg Prod.fst h
          simp at hx
          exact hx.symm
        subst he
        exact ⟨iff_of_false (by simp) hn,
          fun h0 => ⟨rfl, by omega, iff_of_true rfl hr, iff_of_false (by simp) (by omega)⟩⟩
      · rw [if_neg hr] at h
        have htrc : 0 < (tryAccounts env creds mt now st.currentIndex (List.range creds.length) st 0 0).tokenRefreshFailedCount := by
          omega
        rw [if_pos htrc] at h
        have he : e = .all_token_refresh_failed := by
          have hx := congrArg Prod.fst h
          simp at hx
          exact hx.symm
        subst he
        exact ⟨iff_of_false (by simp) hn,
          fun h0 => ⟨rfl, by omega, iff_of_false (by simp) hr, iff_of_true rfl htrc⟩⟩

/-- Pool of two credentials for the C4 witness scenario. -/
def credsC4 : List OAuth2Credentials := [⟨"a0", none⟩, ⟨"a1", none⟩]

/-- Refresh oracle in which every refresh fails. -/
def envC4 : OracleEnv := ⟨true, fun _ => none⟩

/-- State in which account 0 is flash-rate-limited until t = 100. -/
def stC4 : RotSt :=
  { initialRotSt with rateLimits := fun j =>
      if j = 0 then some { proLimited := false, flashLimited := true, limitedUntil := 100 }
      else none }

/-- Witness for C4: a mixed exhaustion (account 0 rate-limited, account 1
refresh-failed) classifies as all_token_refresh_failed. -/
theorem c4_witness :
    ((TokenErrorType.all_token_refresh_failed = TokenErrorType.no_credentials) ↔
      credsC4.length = 0) ∧
    (0 < credsC4.length →
      (tryAccounts envC4 credsC4 .flash 0 stC4.currentIndex (List.range credsC4.length) stC4 0 0).success = none ∧
      (tryAccounts envC4 credsC4 .flash 0 stC4.currentIndex (List.range credsC4.length) stC4 0 0).rateLimitedCount +
        (tryAccounts envC4 credsC4 .flash 0 stC4.currentIndex (List.range credsC4.length) stC4 0 0).tokenRefreshFailedCount
        = credsC4.length ∧
      ((TokenErrorType.all_token_refresh_failed = TokenErrorType.all_rate_limited) ↔
        (tryAccounts envC4 credsC4 .flash 0 stC4.currentIndex (List.range credsC4.length) stC4 0 0).rateLimitedCount
          = credsC4.length) ∧
      ((TokenErrorType.all_token_refresh_failed = TokenErrorType.all_token_refresh_failed) ↔
        0 < (tryAccounts envC4 credsC4 .flash 0 stC4.currentIndex (List.range credsC4.length) stC4 0 0).tokenRefreshFailedCount)) :=
  c4_exhaustion_classification envC4 credsC4 stC4 .flash 0 .all_token_refresh_failed
    (getValidToken envC4 credsC4 stC4 .flash 0).2
    (Prod.ext_iff.mpr ⟨by decide, rfl⟩)

/-! ## C2 / C7: dispatcher failover lemmas -/

theorem refreshAndCache_rateLimits (env : OracleEnv) (creds : List OAuth2Credentials)
    (st : RotSt) (i : Nat) (now : Int) :
    (refreshAndCache env creds st i now).2.rateLimits = st.rateLimits := by
  unfold refreshAndCache
  split
  · rfl
  · split <;> rfl

theorem getOrRefreshToken_rateLimits (env : OracleEnv) (creds : List OAuth2Credentials)
    (st : RotSt) (i : Nat) (now : Int) :
    (getOrRefreshToken env creds st i now).2.rateLimits = st.rateLimits := by
  unfold getOrRefreshToken
  split
  · split
    · rfl
    · exact refreshAndCache_rateLimits ..
  · exact refreshAndCache_rateLimits ..

theorem consultLimit_rateLimits_other (st : RotSt) (idx : Nat) (mt : ModelType)
    (now : Int) (j : Nat) (hj : j ≠ idx) :
    (consultLimit st idx mt now).2.rateLimits j = st.rateLimits j := by
  unfold consultLimit
  split
  · rfl
  · split
    · rfl
    · split
      · simp [hj]
      · rfl

theorem refreshAndCache_cache_other (env : OracleEnv) (creds : List OAuth2Credentials)
    (st : RotSt) (i : Nat) (now : Int) (j : Nat) (hj : j ≠ i) :
    (refreshAndCache env creds st i now).2.tokenCache j = st.tokenCache j := by
  unfold refreshAndCache
  split
  · rfl
  · split
    · simp [hj]
    · rfl

theorem getOrRefreshToken_cache_other (env : OracleEnv) (creds : List OAuth2Credentials)
    (st : RotSt) (i : Nat) (now : Int) (j : Nat) (hj : j ≠ i) :
    (getOrRefreshToken env creds st i now).2.tokenCache j = st.tokenCache j := by
  unfold getOrRefreshToken
  split
  · split
    · rfl
    · exact refreshAndCache_cache_other env creds st i now j hj
  · exact refreshAndCache_cache_other env creds st i now j hj

theorem refreshAndCache_none_state (env : OracleEnv) (creds : List OAuth2Credentials)
    (st : RotSt) (i : Nat) (now : Int) {st' : RotSt}
    (h : refreshAndCache env creds st i now = (none, st')) : st' = st := by
  unfold refreshAndCache at h
  split at h
  · exact (congrArg Prod.snd h).symm
  · split at h
    · exact absurd (congrArg Prod.fst h) (by simp)
    · exact (congrArg Prod.snd h).symm

theorem getOrRefreshToken_none_state (env : OracleEnv) (creds : List OAuth2Credentials)
    (st : RotSt) (i : Nat) (now : Int) {st' : RotSt}
    (h : getOrRefreshToken env creds st i now = (none, st')) : st' = st := by
  unfold getOrRefreshToken at h
  split at h
  · split at h
    · exact absurd (congrArg Prod.fst h) (by simp)
    · exact refreshAndCache_none_state env creds st i now h
  · exact refreshAndCache_none_state env creds st i now h

theorem getValidToken_success_shape {env : OracleEnv} {creds : List OAuth2Credentials}
    {st : RotSt} {mt : ModelType} {now : Int} {s2 : TokenSuccess} {st3 : RotSt}
    (h : getValidToken env creds st mt now = (Sum.inl s2, st3)) :
    (tryAccounts env creds mt now st.currentIndex (List.range creds.length) st 0 0).success
      = some s2 := by
  unfold getValidToken at h
  dsimp only at h
  by_cases hn : creds.length = 0
  · rw [if_pos hn] at h
    exact absurd (congrArg Prod.fst h) (by simp)
  · rw [if_neg hn] at h
    cases hs : (tryAccounts env creds mt now st.currentIndex (List.range creds.length) st 0 0).success with
    | some s =>
      rw [hs] at h
      dsimp only at h
      have hx := congrArg Prod.fst h
      simp only [Sum.inl.injEq] at hx
      rw [hx]
    | none =>
      rw [hs] at h
      dsimp only at h
      split at h
      · exact absurd (congrArg Prod.fst h) (by simp)
      · split at h <;> exact absurd (congrArg Prod.fst h) (by simp)

/-- A live rate limit entry for account j (class flag set, cooldown not yet
elapsed) is never selected by the probing loop: any success has a different
account index. -/
theorem tryAccounts_success_avoid (env : OracleEnv) (creds : List OAuth2Credentials)
    (mt : ModelType) (now : Int) (c0 : Nat) (j : Nat) (rl : RateLimitState)
    (hf : flagOf mt rl = true) (ht : now < rl.limitedUntil) :
    ∀ (attempts : List Nat) (st : RotSt) (rlc trc : Nat),
      st.rateLimits j = some rl →
      ∀ s2, (tryAccounts env creds mt now c0 attempts st rlc trc).success = some s2 →
      s2.accountIndex ≠ j := by
  intro attempts
  induction attempts with
  | nil =>
    intro st rlc trc _ s2 h
    simp [tryAccounts] at h
  | cons a rest ih =>
    intro st rlc trc hrl s2
    simp only [tryAccounts]
    by_cases hij : ((c0 + a) % creds.length) = j
    · have hp : consultLimit st ((c0 + a) % creds.length) mt now = (true, st) := by
        rw [hij]
        unfold consultLimit
        rw [hrl]
        dsimp only
        rw [if_pos ⟨hf, ht⟩]
      rw [hp]
      dsimp only
      exact ih st (rlc + 1) trc hrl s2
    · have hpres : (consultLimit st ((c0 + a) % creds.length) mt now).2.rateLimits j = some rl := by
        rw [consultLimit_rateLimits_other st ((c0 + a) % creds.length) mt now j
          (fun hh => hij hh.symm), hrl]
      split
      · exact ih _ (rlc + 1) trc hpres s2
      · have hpres2 : (getOrRefreshToken env creds
            (consultLimit st ((c0 + a) % creds.length) mt now).2
            ((c0 + a) % creds.length) now).2.rateLimits j = some rl := by
          rw [getOrRefreshToken_rateLimits, hpres]
        split
        next t heq =>
          intro hsucc
          simp only [Option.some.injEq] at hsucc
          rw [← hsucc]
          exact hij
        next heq => exact ih _ rlc (trc + 1) hpres2 s2

/-- C2: on a first upstream response with status 429 or 503, the dispatcher
reports a rate limit against the account and class just used (the account is
limited for that class immediately afterwards), selects a new account — which
is necessarily a different account — and retries exactly once: the retry
response is returned whatever its status with exactly two upstream calls, and
if reselection fails the selection failure is returned with no further
upstream call. -/
theorem c2_rate_limit_failover (env : ProxyEnv) (creds : List OAuth2Credentials)
    (st : RotSt) (modelId : String) (now : Int) (s : TokenSuccess) (st1 : RotSt)
    (hsel : getValidToken env.toOracleEnv creds st (modelTypeOf modelId) now = (Sum.inl s, st1))
    (hstatus : (env.upstream 0).status = 429 ∨ (env.upstream 0).status = 503) :
    isLimitedQ (handleRateLimitReport creds st1 s.accountIndex (modelTypeOf modelId) now)
      s.accountIndex (modelTypeOf modelId) now = true ∧
    (∀ s2 st3,
      getValidToken env.toOracleEnv creds
        (handleRateLimitReport creds st1 s.accountIndex (modelTypeOf modelId) now)
        (modelTypeOf modelId) now = (Sum.inl s2, st3) →
      handleProxy env creds st modelId now =
        (.upstream (env.upstream 1), st3, [s.token, s2.token]) ∧
      s2.accountIndex ≠ s.accountIndex) ∧
    (∀ e st3,
      getValidToken env.toOracleEnv creds
        (handleRateLimitReport creds st1 s.accountIndex (modelTypeOf modelId) now)
        (modelTypeOf modelId) now = (Sum.inr e, st3) →
      handleProxy env creds st modelId now =
        (.selectionError e (errStatus e), st3, [s.token])) := by
  obtain ⟨entry, he, hf, hu⟩ :=
    handleRateLimitReport_entry creds st1 s.accountIndex (modelTypeOf modelId) now
  refine ⟨?_, ?_, ?_⟩
  · unfold isLimitedQ
    rw [he]
    dsimp only
    rw [hf, hu]
    simp only [Bool.true_and, decide_eq_true_eq, RATE_LIMIT_COOLDOWN]
    omega
  · intro s2 st3 h2
    constructor
    · unfold handleProxy
      dsimp only
      rw [hsel]
      dsimp only
      rw [if_pos hstatus, h2]
    · have hshape := getValidToken_success_shape h2
      refine tryAccounts_success_avoid env.toOracleEnv creds (modelTypeOf modelId) now
        (handleRateLimitReport creds st1 s.accountIndex (modelTypeOf modelId) now).currentIndex
        s.accountIndex entry hf ?_ (List.range creds.length) _ 0 0 he s2 hshape
      rw [hu]
      simp only [RATE_LIMIT_COOLDOWN]
      omega
  · intro e st3 h2
    unfold handleProxy
    dsimp only
    rw [hsel]
    dsimp only
    rw [if_pos hstatus, h2]

/-- C7: on an upstream response with status 401, the dispatcher evicts only
that account's cached token (all other cache entries are unchanged in the
final state), acquires a fresh token for the same account index without
reselecting, and retries once with it; if the refresh fails, the original
401 response is returned and the account's cache entry stays evicted. -/
theorem c7_unauthorized_retry (env : ProxyEnv) (creds : List OAuth2Credentials)
    (st : RotSt) (modelId : String) (now : Int) (s : TokenSuccess) (st1 : RotSt)
    (hsel : getValidToken env.toOracleEnv creds st (modelTypeOf modelId) now = (Sum.inl s, st1))
    (hstatus : (env.upstream 0).status = 401) :
    (∀ j, j ≠ s.accountIndex →
      (handleProxy env creds st modelId now).2.1.tokenCache j = st1.tokenCache j) ∧
    (∀ fresh st3,
      getOrRefreshToken env.toOracleEnv creds
        { st1 with tokenCache := fun j => if j = s.accountIndex then none else st1.tokenCache j }
        s.accountIndex now = (some fresh, st3) →
      handleProxy env creds st modelId now =
        (.upstream (env.upstream 1), st3, [s.token, fresh])) ∧
    (∀ st3,
      getOrRefreshToken env.toOracleEnv creds
        { st1 with tokenCache := fun j => if j = s.accountIndex then none else st1.tokenCache j }
        s.accountIndex now = (none, st3) →
      handleProxy env creds st modelId now =
        (.upstream (env.upstream 0), st3, [s.token]) ∧
      st3.tokenCache s.accountIndex = none) := by
  have hcond : ¬((env.upstream 0).status = 429 ∨ (env.upstream 0).status = 503) := by
    rw [hstatus]
    decide
  have hproxy : handleProxy env creds st modelId now =
      (match getOrRefreshToken env.toOracleEnv creds
          { st1 with tokenCache := fun j => if j = s.accountIndex then none else st1.tokenCache j }
          s.accountIndex now with
        | (some fresh, st3) => (.upstream (env.upstream 1), st3, [s.token, fresh])
        | (none, st3) => (.upstream (env.upstream 0), st3, [s.token])) := by
    unfold handleProxy
    dsimp only
    rw [hsel]
    dsimp only
    rw [if_neg hcond, if_pos hstatus]
  refine ⟨?_, ?_, ?_⟩
  · intro j hj
    rw [hproxy]
    rcases hres : getOrRefreshToken env.toOracleEnv creds
        { st1 with tokenCache := fun j => if j = s.accountIndex then none else st1.tokenCache j }
        s.accountIndex now with ⟨o, st3⟩
    have hother := getOrRefreshToken_cache_other env.toOracleEnv creds
      { st1 with tokenCache := fun j => if j = s.accountIndex then none else st1.tokenCache j }
      s.accountIndex now j hj
    rw [hres] at hother
    cases o <;>
      · dsimp only
        rw [hother]
        simp [hj]
  · intro fresh st3 h2
    rw [hproxy, h2]
  · intro st3 h2
    have hst3 := getOrRefreshToken_none_state env.toOracleEnv creds _ _ _ h2
    constructor
    · rw [hproxy, h2]
    · rw [hst3]
      simp

/-- Two-account pool for the dispatcher witnesses. -/
def credsP : List OAuth2Credentials := [⟨"p0", some "proj0"⟩, ⟨"p1", some "proj1"⟩]

/-- State with valid cached tokens for both accounts at now = 0. -/
def stP : RotSt :=
  { initialRotSt with tokenCache := fun j =>
      if j = 0 then some { accessToken := "t0", expiryDate := 10000000, accountIndex := 0 }
      else if j = 1 then some { accessToken := "t1", expiryDate := 10000000, accountIndex := 1 }
      else none }

/-- Dispatcher environment for the C2 witness: first upstream call returns
429, the retry returns 200; refreshes never needed. -/
def envP2 : ProxyEnv :=
  { clientConfigured := true, refreshResult := fun _ => none,
    upstream := fun k => if k = 0 then ⟨429, "limited"⟩ else ⟨200, "ok"⟩ }

/-- Witness for C2: account 0 serves the 429, gets rate-limited, and the
retry is served by account 1 with the 200 response and exactly two upstream
calls. -/
theorem c2_witness :
    isLimitedQ (handleRateLimitReport credsP stP 0 (modelTypeOf "gemini-flash") 0) 0
      (modelTypeOf "gemini-flash") 0 = true ∧
    handleProxy envP2 credsP stP "gemini-flash" 0 =
      (.upstream (envP2.upstream 1),
        handleRateLimitReport credsP stP 0 (modelTypeOf "gemini-flash") 0,
        ["t0", "t1"]) ∧
    (1 : Nat) ≠ 0 := by
  obtain ⟨h1, h2, _⟩ := c2_rate_limit_failover envP2 credsP stP "gemini-flash" 0
    ⟨"t0", 0, "proj0"⟩ stP rfl (by decide)
  have h3 := h2 ⟨"t1", 1, "proj1"⟩
    (handleRateLimitReport credsP stP 0 (modelTypeOf "gemini-flash") 0) rfl
  exact ⟨h1, h3.1, h3.2⟩

/-- Dispatcher environment for the C7 witness: first upstream call returns
401, the retry returns 200; the refresh of account 0 succeeds. -/
def envP7 : ProxyEnv :=
  { clientConfigured := true,
    refreshResult := fun sk => if sk = "p0" then some ("fresh0", 3600) else none,
    upstream := fun k => if k = 0 then ⟨401, "unauthorized"⟩ else ⟨200, "ok"⟩ }

/-- The post-eviction state of the C7 witness. -/
def st2C7 : RotSt :=
  { stP with tokenCache := fun j => if j = 0 then none else stP.tokenCache j }

/-- Witness for C7: account 1's cache entry is untouched, and the dispatch
retries account 0 with the freshly refreshed token. -/
theorem c7_witness :
    (handleProxy envP7 credsP stP "gemini-flash" 0).2.1.tokenCache 1 = stP.tokenCache 1 ∧
    handleProxy envP7 credsP stP "gemini-flash" 0 =
      (.upstream (envP7.upstream 1), (getOrRefreshToken envP7.toOracleEnv credsP st2C7 0 0).2,
        ["t0", "fresh0"]) := by
  obtain ⟨hA, hB, _⟩ := c7_unauthorized_retry envP7 credsP stP "gemini-flash" 0
    ⟨"t0", 0, "proj0"⟩ stP rfl (by decide)
  refine ⟨hA 1 (by decide), ?_⟩
  exact hB "fresh0" (getOrRefreshToken envP7.toOracleEnv credsP st2C7 0 0).2
    (Prod.ext_iff.mpr ⟨by decide, rfl⟩)

/-! ## Stream translator (handleStreamingRequest's TransformStream)

The translator is embedded at the character level: `TextDecoder` with
streaming mode (which reassembles UTF-8 sequences split across chunk
boundaries) is abstracted away, so a chunk is a list of characters.
`JSON.parse` together with the field navigation of the code is abstracted
as a deterministic parser `parse : List Char → Option GParsed` carried in
the session configuration (`none` models malformed JSON, which the code
silently skips).  Emitted SSE chunks are abstracted to their varying
payload: the passthrough terminator, a content delta, or the terminal
chunk with its optional usage summary; the constant fields (completion id,
creation time, model name) are omitted. -/

/-- One element of a candidate's parts array: an optional text and the
`thought === true` flag. -/
structure GPart where
  text : Option (List Char)
  thought : Bool
deriving DecidableEq

/-- A parsed candidate: `content.parts`, top-level `parts`, and the
optional finishReason string. -/
structure GCandidate where
  contentParts : Option (List GPart)
  parts : Option (List GPart)
  finishReason : Option (List Char)
deriving DecidableEq

/-- Usage metadata (token counts). -/
structure GUsage where
  promptTokenCount : Option Nat
  candidatesTokenCount : Option Nat
deriving DecidableEq

/-- The JSON shapes the code navigates: flat top-level `candidates` /
`usageMetadata`, and the nested `response` envelope's `candidates` /
`usageMetadata`.  The streaming code reads candidates from either envelope
but usage only from the flat top level; `responseUsageMetadata` is carried
here to model upstream events whose usage sits in the nested envelope. -/
structure GParsed where
  candidates : Option (List GCandidate)
  responseCandidates : Option (List GCandidate)
  usageMetadata : Option GUsage
  responseUsageMetadata : Option GUsage
deriving DecidableEq

/-- Session configuration: the abstract event parser and the
STREAM_THINKING_AS_CONTENT flag. -/
structure TransCfg where
  parse : List Char → Option GParsed
  streamThinkingAsContent : Bool

/-- An emitted caller-facing chunk, abstracted to its varying payload. -/
inductive Emit where
  | done
  | content (text : List Char)
  | final (usage : Option (Nat × Nat × Nat))
deriving DecidableEq

/-- The opening thinking marker. -/
def openMarker : List Char := ['<', 't', 'h', 'i', 'n', 'k', 'i', 'n', 'g', '>']

/-- The closing thinking marker. -/
def closeMarker : List Char := ['<', '/', 't', 'h', 'i', 'n', 'k', 'i', 'n', 'g', '>']

/-- The SSE event-data line prefix. -/
def dataPrefix : List Char := ['d', 'a', 't', 'a', ':', ' ']

/-- The literal stream-terminator payload. -/
def doneLit : List Char := ['[', 'D', 'O', 'N', 'E', ']']

/-- The normal finish reason. -/
def stopLit : List Char := ['S', 'T', 'O', 'P']

/-- JavaScript String.prototype.trim whitespace (the characters relevant to
SSE data lines). -/
def isJsWhitespace (c : Char) : Bool :=
  c = ' ' ∨ c = '\t' ∨ c = '\n' ∨ c = '\r'

/-- String.prototype.trim. -/
def trimChars (s : List Char) : List Char :=
  ((s.dropWhile isJsWhitespace).reverse.dropWhile isJsWhitespace).reverse

/-- `candidate.content?.parts || candidate.parts || []`. -/
def candidateParts (c : GCandidate) : List GPart :=
  match c.contentParts with
  | some ps => ps
  | none => c.parts.getD []

/-- `parsed.candidates || parsed.response?.candidates || []` (a present
array is truthy even when empty). -/
def parsedCandidates (p : GParsed) : List GCandidate :=
  match p.candidates with
  | some cs => cs
  | none => p.responseCandidates.getD []

/-- The usage object of the terminal chunk:
prompt/completion counts default to 0, total is their sum. -/
def usageSummary (u : Option GUsage) : Option (Nat × Nat × Nat) :=
  u.map fun x =>
    (x.promptTokenCount.getD 0, x.candidatesTokenCount.getD 0,
      x.promptTokenCount.getD 0 + x.candidatesTokenCount.getD 0)

/-- The terminal-chunk trigger:
`parsed.usageMetadata || (candidates[0]?.finishReason && candidates[0].finishReason !== "STOP")`
— usage is consulted only in the flat top-level envelope, and only the
first candidate's finish reason counts (truthy means a nonempty string). -/
def finishTriggered (p : GParsed) : Bool :=
  p.usageMetadata.isSome ||
    (match (parsedCandidates p).head? with
     | some c0 =>
       match c0.finishReason with
       | some fr => decide (fr ≠ []) && decide (fr ≠ stopLit)
       | none => false
     | none => false)

/-- Processing of one text part: skip absent or empty text; prepend the
opening marker when entering a thinking segment (thought part, mode on, not
already inside), prepend the closing marker when leaving one (non-thought
part while inside); emit one content chunk. -/
def processPart (cfg : TransCfg) (isInThinking : Bool) (part : GPart) :
    Bool × List Emit :=
  match part.text with
  | none => (isInThinking, [])
  | some t =>
    if t = [] then (isInThinking, [])
    else
      let isThinkingPart := part.thought
      if isThinkingPart && cfg.streamThinkingAsContent then
        if !isInThinking then (true, [Emit.content (openMarker ++ t)])
        else (isInThinking, [Emit.content t])
      else if isInThinking && !isThinkingPart then
        (false, [Emit.content (closeMarker ++ t)])
      else (isInThinking, [Emit.content t])

/-- Fold of processPart over a candidate's parts. -/
def processParts (cfg : TransCfg) (th : Bool) : List GPart → Bool × List Emit
  | [] => (th, [])
  | p :: ps =>
    let r1 := processPart cfg th p
    let r2 := processParts cfg r1.1 ps
    (r2.1, r1.2 ++ r2.2)

/-- Fold of processParts over the candidates of one event. -/
def processCandidates (cfg : TransCfg) (th : Bool) : List GCandidate → Bool × List Emit
  | [] => (th, [])
  | c :: cs =>
    let r1 := processParts cfg th (candidateParts c)
    let r2 := processCandidates cfg r1.1 cs
    (r2.1, r1.2 ++ r2.2)

/-- Processing of one complete SSE line: ignore lines without the data
prefix; pass the [DONE] terminator through; skip malformed payloads; emit
the content chunks of all candidate parts and, when the terminal trigger
fires, exactly one final chunk carrying the flat-envelope usage summary. -/
def processLine (cfg : TransCfg) (th : Bool) (line : List Char) : Bool × List Emit :=
  if ¬ dataPrefix.isPrefixOf line then (th, [])
  else
    let data := trimChars (line.drop 6)
    if data = doneLit then (th, [Emit.done])
    else
      match cfg.parse data with
      | none => (th, [])
      | some parsed =>
        let r := processCandidates cfg th (parsedCandidates parsed)
        if finishTriggered parsed then
          (r.1, r.2 ++ [Emit.final (usageSummary parsed.usageMetadata)])
        else (r.1, r.2)

/-- Fold of processLine over the complete lines of a chunk. -/
def processLines (cfg : TransCfg) (th : Bool) : List (List Char) → Bool × List Emit
  | [] => (th, [])
  | l :: ls =>
    let r1 := processLine cfg th l
    let r2 := processLines cfg r1.1 ls
    (r2.1, r1.2 ++ r2.2)

/-- buffer.split newline discipline: the complete lines and the trailing
partial line (`lines.pop() || ""`). -/
def splitNL : List Char → List (List Char) × List Char
  | [] => ([], [])
  | c :: cs =>
    let r := splitNL cs
    if c = '\n' then ([] :: r.1, r.2)
    else
      match r.1 with
      | [] => ([], c :: r.2)
      | l :: ls => ((c :: l) :: ls, r.2)

/-- Per-session translator state: the partial-line buffer and the
thinking-segment flag. -/
structure TrState where
  buffer : List Char
  isInThinking : Bool
deriving DecidableEq

/-- The transform callback for one incoming chunk: append to the buffer,
split on newline, hold back the trailing partial line, process the complete
lines. -/
def feed (cfg : TransCfg) (st : TrState) (chunk : List Char) : TrState × List Emit :=
  let sp := splitNL (st.buffer ++ chunk)
  let r := processLines cfg st.isInThinking sp.1
  (⟨sp.2, r.1⟩, r.2)

/-- Feeding a whole sequence of chunks. -/
def feedAll (cfg : TransCfg) (st : TrState) : List (List Char) → TrState × List Emit
  | [] => (st, [])
  | c :: cs =>
    let r1 := feed cfg st c
    let r2 := feedAll cfg r1.1 cs
    (r2.1, r1.2 ++ r2.2)

/-- The flush callback on session end: a closing-marker content chunk if a
thinking segment is still open, then always the terminator last. -/
def flushEmits (st : TrState) : List Emit :=
  (if st.isInThinking then [Emit.content closeMarker] else []) ++ [Emit.done]

/-- Fresh translator state at session start. -/
def initialTrState : TrState := ⟨[], false⟩

/-- The full emission of one translation session over a chunked upstream
stream: everything emitted by the transform callbacks followed by the flush
output. -/
def sessionOutput (cfg : TransCfg) (chunks : List (List Char)) : List Emit :=
  let r := feedAll cfg initialTrState chunks
  r.2 ++ flushEmits r.1

/-! ## C5: chunk boundary invariance -/

theorem splitNL_fst_nil : ∀ s : List Char, (splitNL s).1 = [] → (splitNL s).2 = s := by
  intro s
  induction s with
  | nil => intro _; rfl
  | cons c cs ih =>
    simp only [splitNL]
    by_cases hc : c = '\n'
    · rw [if_pos hc]
      intro h
      exact absurd h (by simp)
    · rw [if_neg hc]
      cases hr : (splitNL cs).1 with
      | nil =>
        intro _
        dsimp only
        rw [ih hr]
      | cons l ls =>
        intro h
        exact absurd h (by simp)

theorem splitNL_no_newline : ∀ s : List Char, (∀ c ∈ s, c ≠ '\n') → splitNL s = ([], s) := by
  intro s
  induction s with
  | nil => intro _; rfl
  | cons c cs ih =>
    intro h
    have hc : c ≠ '\n' := h c (by simp)
    have hcs := ih (fun x hx => h x (by simp [hx]))
    simp [splitNL, hc, hcs]

theorem splitNL_snd_no_newline : ∀ s : List Char, ∀ c ∈ (splitNL s).2, c ≠ '\n' := by
  intro s
  induction s with
  | nil => intro c hc; simp [splitNL] at hc
  | cons c cs ih =>
    simp only [splitNL]
    by_cases hc : c = '\n'
    · rw [if_pos hc]
      exact ih
    · rw [if_neg hc]
      cases hr : (splitNL cs).1 with
      | nil =>
        intro x hx
        dsimp only at hx
        rcases List.mem_cons.mp hx with h1 | h2
        · rw [h1]; exact hc
        · exact ih x h2
      | cons l ls =>
        exact ih

theorem splitNL_append (u v : List Char) :
    splitNL (u ++ v) =
      ((splitNL u).1 ++ (splitNL ((splitNL u).2 ++ v)).1,
        (splitNL ((splitNL u).2 ++ v)).2) := by
  induction u with
  | nil => simp [splitNL]
  | cons c cs ih =>
    by_cases hc : c = '\n'
    · simp [splitNL, hc, ih]
    · cases hr : (splitNL cs).1 with
      | nil =>
        have h2 := splitNL_fst_nil cs hr
        simp [splitNL, hc, hr, h2]
      | cons l ls =>
        simp [splitNL, hc, hr, ih]

theorem processLines_append (cfg : TransCfg) (th : Bool) (l1 l2 : List (List Char)) :
    processLines cfg th (l1 ++ l2) =
      ((processLines cfg (processLines cfg th l1).1 l2).1,
        (processLines cfg th l1).2 ++ (processLines cfg (processLines cfg th l1).1 l2).2) := by
  induction l1 generalizing th with
  | nil => simp [processLines]
  | cons l ls ih => simp [processLines, ih]

theorem feed_append (cfg : TransCfg) (st : TrState) (a b : List Char) :
    feed cfg st (a ++ b) =
      ((feed cfg (feed cfg st a).1 b).1,
        (feed cfg st a).2 ++ (feed cfg (feed cfg st a).1 b).2) := by
  unfold feed
  dsimp only
  rw [← List.append_assoc, splitNL_append (st.buffer ++ a) b, processLines_append]

theorem feed_buffer_no_newline (cfg : TransCfg) (st : TrState) (chunk : List Char) :
    ∀ c ∈ (feed cfg st chunk).1.buffer, c ≠ '\n' :=
  splitNL_snd_no_newline (st.buffer ++ chunk)

theorem feed_nil (cfg : TransCfg) (st : TrState) (h : ∀ c ∈ st.buffer, c ≠ '\n') :
    feed cfg st [] = (st, []) := by
  unfold feed
  rw [List.append_nil, splitNL_no_newline st.buffer h]
  rfl

theorem feedAll_eq_feed_flatten (cfg : TransCfg) :
    ∀ (chunks : List (List Char)) (st : TrState),
      (∀ c ∈ st.buffer, c ≠ '\n') →
      feedAll cfg st chunks = feed cfg st chunks.flatten := by
  intro chunks
  induction chunks with
  | nil =>
    intro st h
    rw [show ([] : List (List Char)).flatten = [] from rfl, feed_nil cfg st h]
    rfl
  | cons c cs ih =>
    intro st h
    rw [show (c :: cs).flatten = c ++ cs.flatten from rfl, feed_append]
    simp only [feedAll]
    rw [ih (feed cfg st c).1 (feed_buffer_no_newline cfg st c)]

/-- C5: for every upstream character sequence and every way of splitting it
into chunks, the translation session emits exactly the same output sequence
(hence in particular the same concatenated text, with or without the
thinking-marker tokens) as when the sequence is delivered as one unsplit
chunk: holding back the trailing partial line loses no text and duplicates
none. -/
theorem c5_chunk_boundary_invariance (cfg : TransCfg) (chunks : List (List Char)) :
    sessionOutput cfg chunks = sessionOutput cfg [chunks.flatten] := by
  unfold sessionOutput
  rw [feedAll_eq_feed_flatten cfg chunks initialTrState (by simp [initialTrState]),
    feedAll_eq_feed_flatten cfg [chunks.flatten] initialTrState (by simp [initialTrState]),
    show ([chunks.flatten] : List (List Char)).flatten = chunks.flatten ++ [] from rfl,
    List.append_nil]

/-! ## C6: thinking-marker balance -/

/-- Number of (possibly overlapping) occurrences of `pat` in `s`. -/
def countOcc (pat : List Char) : List Char → Nat
  | [] => 0
  | c :: rest => (if pat.isPrefixOf (c :: rest) then 1 else 0) + countOcc pat rest

/-- Opening-marker occurrences carried by one emitted chunk. -/
def emitOpens : Emit → Nat
  | .content t => countOcc openMarker t
  | _ => 0

/-- Closing-marker occurrences carried by one emitted chunk. -/
def emitCloses : Emit → Nat
  | .content t => countOcc closeMarker t
  | _ => 0

/-- Opening-marker occurrences in an emission sequence. -/
def opensOf (es : List Emit) : Nat := (es.map emitOpens).sum

/-- Closing-marker occurrences in an emission sequence. -/
def closesOf (es : List Emit) : Nat := (es.map emitCloses).sum

/-- 1 when a thinking segment is open, else 0. -/
def markerBal (b : Bool) : Nat := if b then 1 else 0

/-- No part text produced by the session's parser contains the character
the markers start with, so marker occurrences in the output are exactly the
markers the translator inserted. -/
def parseTextsClean (cfg : TransCfg) : Prop :=
  ∀ s p, cfg.parse s = some p → ∀ c ∈ parsedCandidates p,
    ∀ part ∈ candidateParts c, ∀ t, part.text = some t → ∀ ch ∈ t, ch ≠ '<'

theorem isPrefixOf_append_self : ∀ (l t : List Char), l.isPrefixOf (l ++ t) = true := by
  intro l t
  induction l with
  | nil => simp
  | cons a as ih => simp [List.isPrefixOf, ih]

theorem countOcc_no_lt (p : List Char) : ∀ t : List Char, (∀ c ∈ t, c ≠ '<') →
    countOcc ('<' :: p) t = 0 := by
  intro t
  induction t with
  | nil => intro _; rfl
  | cons c cs ih =>
    intro h
    have hc : c ≠ '<' := h c (by simp)
    simp only [countOcc]
    rw [ih (fun x hx => h x (by simp [hx]))]
    have hpf : (('<' :: p).isPrefixOf (c :: cs)) = false := by
      rw [show (('<' :: p).isPrefixOf (c :: cs)) = (('<' == c) && (p.isPrefixOf cs)) from rfl,
        beq_eq_false_iff_ne.mpr (Ne.symm hc)]
      rfl
    simp [hpf]

theorem countOcc_append_no_lt (p : List Char) : ∀ (m t : List Char), (∀ c ∈ m, c ≠ '<') →
    countOcc ('<' :: p) (m ++ t) = countOcc ('<' :: p) t := by
  intro m
  induction m with
  | nil => intro t _; rfl
  | cons c cs ih =>
    intro t h
    have hc : c ≠ '<' := h c (by simp)
    simp only [List.cons_append, countOcc, List.append_eq]
    rw [ih t (fun x hx => h x (by simp [hx]))]
    have hpf : (('<' :: p).isPrefixOf (c :: (cs ++ t))) = false := by
      rw [show (('<' :: p).isPrefixOf (c :: (cs ++ t))) =
          (('<' == c) && (p.isPrefixOf (cs ++ t))) from rfl,
        beq_eq_false_iff_ne.mpr (Ne.symm hc)]
      rfl
    simp [hpf]

theorem countOcc_open_in_open (t : List Char) (h : ∀ c ∈ t, c ≠ '<') :
    countOcc openMarker (openMarker ++ t) = 1 := by
  have h0 : countOcc openMarker (openMarker ++ t) =
      (if openMarker.isPrefixOf (openMarker ++ t) then 1 else 0) +
        countOcc openMarker (['t', 'h', 'i', 'n', 'k', 'i', 'n', 'g', '>'] ++ t) := rfl
  rw [h0, isPrefixOf_append_self,
    show openMarker = '<' :: ['t', 'h', 'i', 'n', 'k', 'i', 'n', 'g', '>'] from rfl,
    countOcc_append_no_lt _ _ _ (by decide), countOcc_no_lt _ t h]
  simp

theorem countOcc_close_in_open (t : List Char) (h : ∀ c ∈ t, c ≠ '<') :
    countOcc closeMarker (openMarker ++ t) = 0 := by
  have h0 : countOcc closeMarker (openMarker ++ t) =
      (if closeMarker.isPrefixOf (openMarker ++ t) then 1 else 0) +
        countOcc closeMarker (['t', 'h', 'i', 'n', 'k', 'i', 'n', 'g', '>'] ++ t) := rfl
  have hpf : closeMarker.isPrefixOf (openMarker ++ t) = false := rfl
  rw [h0, hpf,
    show closeMarker = '<' :: ['/', 't', 'h', 'i', 'n', 'k', 'i', 'n', 'g', '>'] from rfl,
    countOcc_append_no_lt _ _ _ (by decide), countOcc_no_lt _ t h]
  simp

theorem countOcc_open_in_close (t : List Char) (h : ∀ c ∈ t, c ≠ '<') :
    countOcc openMarker (closeMarker ++ t) = 0 := by
  have h0 : countOcc openMarker (closeMarker ++ t) =
      (if openMarker.isPrefixOf (closeMarker ++ t) then 1 else 0) +
        countOcc openMarker (['/', 't', 'h', 'i', 'n', 'k', 'i', 'n', 'g', '>'] ++ t) := rfl
  have hpf : openMarker.isPrefixOf (closeMarker ++ t) = false := rfl
  rw [h0, hpf,
    show openMarker = '<' :: ['t', 'h', 'i', 'n', 'k', 'i', 'n', 'g', '>'] from rfl,
    countOcc_append_no_lt _ _ _ (by decide), countOcc_no_lt _ t h]
  simp

theorem countOcc_close_in_close (t : List Char) (h : ∀ c ∈ t, c ≠ '<') :
    countOcc closeMarker (closeMarker ++ t) = 1 := by
  have h0 : countOcc closeMarker (closeMarker ++ t) =
      (if closeMarker.isPrefixOf (closeMarker ++ t) then 1 else 0) +
        countOcc closeMarker (['/', 't', 'h', 'i', 'n', 'k', 'i', 'n', 'g', '>'] ++ t) := rfl
  rw [h0, isPrefixOf_append_self,
    show closeMarker = '<' :: ['/', 't', 'h', 'i', 'n', 'k', 'i', 'n', 'g', '>'] from rfl,
    countOcc_append_no_lt _ _ _ (by decide), countOcc_no_lt _ t h]
  simp

theorem countOcc_plain_open (t : List Char) (h : ∀ c ∈ t, c ≠ '<') :
    countOcc openMarker t = 0 := by
  rw [show openMarker = '<' :: ['t', 'h', 'i', 'n', 'k', 'i', 'n', 'g', '>'] from rfl]
  exact countOcc_no_lt _ t h

theorem countOcc_plain_close (t : List Char) (h : ∀ c ∈ t, c ≠ '<') :
    countOcc closeMarker t = 0 := by
  rw [show closeMarker = '<' :: ['/', 't', 'h', 'i', 'n', 'k', 'i', 'n', 'g', '>'] from rfl]
  exact countOcc_no_lt _ t h

theorem processPart_balance (cfg : TransCfg) (th : Bool) (part : GPart)
    (hclean : ∀ t, part.text = some t → ∀ ch ∈ t, ch ≠ '<') :
    opensOf (processPart cfg th part).2 + markerBal th =
      closesOf (processPart cfg th part).2 + markerBal (processPart cfg th part).1 := by
  cases hpt : part.text with
  | none => simp [processPart, hpt, opensOf, closesOf]
  | some t =>
    by_cases ht : t = []
    · simp [processPart, hpt, ht, opensOf, closesOf]
    · have hcl := hclean t hpt
      have hoo := countOcc_open_in_open t hcl
      have hco := countOcc_close_in_open t hcl
      have hoc := countOcc_open_in_close t hcl
      have hcc := countOcc_close_in_close t hcl
      have hpo := countOcc_plain_open t hcl
      have hpc := countOcc_plain_close t hcl
      cases hth : part.thought <;> cases hmode : cfg.streamThinkingAsContent <;> cases th <;>
        simp [processPart, hpt, ht, hth, hmode, opensOf, closesOf, emitOpens, emitCloses,
          markerBal, hoo, hco, hoc, hcc, hpo, hpc]

theorem processParts_balance (cfg : TransCfg) (th : Bool) (ps : List GPart)
    (hclean : ∀ part ∈ ps, ∀ t, part.text = some t → ∀ ch ∈ t, ch ≠ '<') :
    opensOf (processParts cfg th ps).2 + markerBal th =
      closesOf (processParts cfg th ps).2 + markerBal (processParts cfg th ps).1 := by
  induction ps generalizing th with
  | nil => rfl
  | cons p ps ih =>
    have h1 := processPart_balance cfg th p (hclean p (by simp))
    have h2 := ih (processPart cfg th p).1 (fun q hq => hclean q (by simp [hq]))
    simp only [processParts, opensOf, closesOf, List.map_append, List.sum_append] at h1 h2 ⊢
    omega

theorem processCandidates_balance (cfg : TransCfg) (th : Bool) (cs : List GCandidate)
    (hclean : ∀ c ∈ cs, ∀ part ∈ candidateParts c, ∀ t, part.text = some t → ∀ ch ∈ t, ch ≠ '<') :
    opensOf (processCandidates cfg th cs).2 + markerBal th =
      closesOf (processCandidates cfg th cs).2 + markerBal (processCandidates cfg th cs).1 := by
  induction cs generalizing th with
  | nil => rfl
  | cons c cs ih =>
    have h1 := processParts_balance cfg th (candidateParts c) (hclean c (by simp))
    have h2 := ih (processParts cfg th (candidateParts c)).1 (fun q hq => hclean q (by simp [hq]))
    simp only [processCandidates, opensOf, closesOf, List.map_append, List.sum_append] at h1 h2 ⊢
    omega

theorem processLine_balance (cfg : TransCfg) (hpc : parseTextsClean cfg)
    (th : Bool) (line : List Char) :
    opensOf (processLine cfg th line).2 + markerBal th =
      closesOf (processLine cfg th line).2 + markerBal (processLine cfg th line).1 := by
  unfold processLine
  split
  · rfl
  · dsimp only
    split
    · simp [opensOf, closesOf, emitOpens, emitCloses]
    · cases hp : cfg.parse (trimChars (line.drop 6)) with
      | none => rfl
      | some parsed =>
        dsimp only
        have hb := processCandidates_balance cfg th (parsedCandidates parsed)
          (fun c hc part hpart t hpt => hpc _ _ hp c hc part hpart t hpt)
        split
        · simp only [opensOf, closesOf, List.map_append, List.sum_append] at hb ⊢
          simp only [List.map_cons, List.map_nil, List.sum_cons, List.sum_nil, emitOpens, emitCloses]
          omega
        · exact hb

theorem processLines_balance (cfg : TransCfg) (hpc : parseTextsClean cfg)
    (th : Bool) (ls : List (List Char)) :
    opensOf (processLines cfg th ls).2 + markerBal th =
      closesOf (processLines cfg th ls).2 + markerBal (processLines cfg th ls).1 := by
  induction ls generalizing th with
  | nil => rfl
  | cons l ls ih =>
    have h1 := processLine_balance cfg hpc th l
    have h2 := ih (processLine cfg th l).1
    simp only [processLines, opensOf, closesOf, List.map_append, List.sum_append] at h1 h2 ⊢
    omega

theorem feedAll_balance (cfg : TransCfg) (hpc : parseTextsClean cfg) :
    ∀ (chunks : List (List Char)) (st : TrState),
      opensOf (feedAll cfg st chunks).2 + markerBal st.isInThinking =
        closesOf (feedAll cfg st chunks).2 + markerBal (feedAll cfg st chunks).1.isInThinking := by
  intro chunks
  induction chunks with
  | nil => intro st; rfl
  | cons c cs ih =>
    intro st
    have h1 : opensOf (feed cfg st c).2 + markerBal st.isInThinking =
        closesOf (feed cfg st c).2 + markerBal (feed cfg st c).1.isInThinking :=
      processLines_balance cfg hpc st.isInThinking (splitNL (st.buffer ++ c)).1
    have h2 := ih (feed cfg st c).1
    simp only [feedAll, opensOf, closesOf, List.map_append, List.sum_append] at h1 h2 ⊢
    omega

/-- C6: in every translation session whose parser produces no part text
containing the marker-initial character, the emitted output has equally many
opening and closing thinking markers; the output consists of the transform
emissions followed by the flush output, which places the closing-marker
chunk (needed exactly when a thinking segment is still open) immediately
before the terminator, and the terminator is emitted last. -/
theorem c6_marker_balance (cfg : TransCfg) (chunks : List (List Char))
    (hpc : parseTextsClean cfg) :
    opensOf (sessionOutput cfg chunks) = closesOf (sessionOutput cfg chunks) ∧
    sessionOutput cfg chunks =
      (feedAll cfg initialTrState chunks).2 ++
        ((if (feedAll cfg initialTrState chunks).1.isInThinking then
            [Emit.content closeMarker] else []) ++ [Emit.done]) := by
  constructor
  · have hb := feedAll_balance cfg hpc chunks initialTrState
    have hcc : countOcc closeMarker closeMarker = 1 := by
      have := countOcc_close_in_close [] (by simp)
      simpa using this
    have hoc : countOcc openMarker closeMarker = 0 := by
      have := countOcc_open_in_close [] (by simp)
      simpa using this
    unfold sessionOutput flushEmits
    dsimp only
    cases hth : (feedAll cfg initialTrState chunks).1.isInThinking <;>
      · rw [hth] at hb
        simp only [hth, if_pos, if_neg, markerBal, initialTrState, Bool.false_eq_true,
          opensOf, closesOf, List.map_append, List.sum_append, List.map_cons, List.map_nil,
          List.sum_cons, List.sum_nil, emitOpens, emitCloses, ite_true, ite_false] at hb ⊢
        simp [hcc, hoc]
        omega
  · rfl

/-- Parser for the C6 witness: the payload "X" is an event with a single
thought part "hi" (thinking-as-content enabled); the stream is cut before
the segment closes. -/
def cfgC6 : TransCfg :=
  ⟨fun s =>
    if s = ['X'] then
      some ⟨some [⟨some [⟨some ['h', 'i'], true⟩], none, none⟩], none, none, none⟩
    else none,
    true⟩

theorem cfgC6_clean : parseTextsClean cfgC6 := by
  intro s p hp
  by_cases hs : s = ['X']
  · rw [show cfgC6.parse s = (if s = ['X'] then
        some ⟨some [⟨some [⟨some ['h', 'i'], true⟩], none, none⟩], none, none, none⟩
      else none) from rfl, if_pos hs] at hp
    have hpe := (Option.some.inj hp).symm
    subst hpe
    decide
  · rw [show cfgC6.parse s = (if s = ['X'] then
        some ⟨some [⟨some [⟨some ['h', 'i'], true⟩], none, none⟩], none, none, none⟩
      else none) from rfl, if_neg hs] at hp
    exact absurd hp (by simp)

/-- Witness for C6: a session cut while inside a thinking segment still has
balanced markers, with the closing chunk before the final terminator. -/
theorem c6_witness :
    opensOf (sessionOutput cfgC6 [['d', 'a', 't', 'a', ':', ' ', 'X', '\n']]) =
      closesOf (sessionOutput cfgC6 [['d', 'a', 't', 'a', ':', ' ', 'X', '\n']]) ∧
    sessionOutput cfgC6 [['d', 'a', 't', 'a', ':', ' ', 'X', '\n']] =
      (feedAll cfgC6 initialTrState [['d', 'a', 't', 'a', ':', ' ', 'X', '\n']]).2 ++
        ((if (feedAll cfgC6 initialTrState [['d', 'a', 't', 'a', ':', ' ', 'X', '\n']]).1.isInThinking then
            [Emit.content closeMarker] else []) ++ [Emit.done]) :=
  c6_marker_balance cfgC6 [['d', 'a', 't', 'a', ':', ' ', 'X', '\n']] cfgC6_clean

/-! ## C9: the terminal chunk trigger -/

/-- Recognizer of the terminal chunk among emissions. -/
def isFinalEmit : Emit → Bool
  | .final _ => true
  | _ => false

theorem processPart_no_final (cfg : TransCfg) (th : Bool) (part : GPart) :
    (processPart cfg th part).2.countP isFinalEmit = 0 := by
  cases hpt : part.text with
  | none => simp [processPart, hpt]
  | some t =>
    by_cases ht : t = []
    · simp [processPart, hpt, ht]
    · cases hth : part.thought <;> cases hmode : cfg.streamThinkingAsContent <;> cases th <;>
        simp [processPart, hpt, ht, hth, hmode, isFinalEmit]

theorem processParts_no_final (cfg : TransCfg) (th : Bool) (ps : List GPart) :
    (processParts cfg th ps).2.countP isFinalEmit = 0 := by
  induction ps generalizing th with
  | nil => rfl
  | cons p ps ih =>
    simp only [processParts, List.countP_append]
    rw [processPart_no_final, ih]

theorem processCandidates_no_final (cfg : TransCfg) (th : Bool) (cs : List GCandidate) :
    (processCandidates cfg th cs).2.countP isFinalEmit = 0 := by
  induction cs generalizing th with
  | nil => rfl
  | cons c cs ih =>
    simp only [processCandidates, List.countP_append]
    rw [processParts_no_final, ih]

theorem finishTriggered_iff (p : GParsed) :
    finishTriggered p = true ↔
      (p.usageMetadata.isSome = true ∨
        ∃ c0 fr, (parsedCandidates p).head? = some c0 ∧ c0.finishReason = some fr ∧
          fr ≠ [] ∧ fr ≠ stopLit) := by
  unfold finishTriggered
  cases hu : p.usageMetadata.isSome
  · simp only [Bool.false_or]
    cases hh : (parsedCandidates p).head? with
    | none => simp [hh]
    | some c0 =>
      cases hf : c0.finishReason with
      | none => simp [hf]
      | some fr => simp [hf]
  · simp

/-- C9 as amended: a parsed data line emits exactly one terminal chunk iff
it carries usage metadata in the flat top-level envelope or its first
candidate reports a nonempty finish reason other than STOP; the terminal
chunk comes last and carries the usage summary of the flat envelope (usage
sitting only in the nested response envelope does not trigger it).  When
neither condition holds, no terminal chunk is emitted. -/
theorem c9_amended_terminal_chunk (cfg : TransCfg) (th : Bool) (line : List Char)
    (parsed : GParsed)
    (hpre : dataPrefix.isPrefixOf line = true)
    (hnd : trimChars (line.drop 6) ≠ doneLit)
    (hp : cfg.parse (trimChars (line.drop 6)) = some parsed) :
    ((parsed.usageMetadata.isSome = true ∨
        ∃ c0 fr, (parsedCandidates parsed).head? = some c0 ∧ c0.finishReason = some fr ∧
          fr ≠ [] ∧ fr ≠ stopLit) →
      (processLine cfg th line).2 =
        (processCandidates cfg th (parsedCandidates parsed)).2 ++
          [Emit.final (usageSummary parsed.usageMetadata)] ∧
      (processLine cfg th line).2.countP isFinalEmit = 1) ∧
    (¬ (parsed.usageMetadata.isSome = true ∨
        ∃ c0 fr, (parsedCandidates parsed).head? = some c0 ∧ c0.finishReason = some fr ∧
          fr ≠ [] ∧ fr ≠ stopLit) →
      (processLine cfg th line).2.countP isFinalEmit = 0) := by
  have hshape : processLine cfg th line =
      (let r := processCandidates cfg th (parsedCandidates parsed)
        if finishTriggered parsed then
          (r.1, r.2 ++ [Emit.final (usageSummary parsed.usageMetadata)])
        else (r.1, r.2)) := by
    unfold processLine
    rw [if_neg (fun hh => hh hpre), if_neg hnd, hp]
  constructor
  · intro hcond
    have hft : finishTriggered parsed = true := (finishTriggered_iff parsed).mpr hcond
    rw [hshape]
    dsimp only
    rw [if_pos hft]
    refine ⟨rfl, ?_⟩
    simp only [List.countP_append]
    rw [processCandidates_no_final]
    simp [isFinalEmit]
  · intro hcond
    have hft : finishTriggered parsed ≠ true :=
      fun hh => hcond ((finishTriggered_iff parsed).mp hh)
    rw [hshape]
    dsimp only
    rw [if_neg hft]
    exact processCandidates_no_final cfg th (parsedCandidates parsed)

/-- The upstream event of the C9 counterexample: usage metadata sits only in
the nested response envelope, the (nested) candidate finishes with the
normal STOP reason and carries the text "ok". -/
def ev9 : GParsed :=
  { candidates := none,
    responseCandidates :=
      some [{ contentParts := some [{ text := some ['o', 'k'], thought := false }],
              parts := none, finishReason := some stopLit }],
    usageMetadata := none,
    responseUsageMetadata := some { promptTokenCount := some 5, candidatesTokenCount := some 7 } }

/-- Parser for the C9 counterexample session. -/
def cfg9 : TransCfg := ⟨fun s => if s = ['Z'] then some ev9 else none, true⟩

/-- The event-data line carrying payload "Z". -/
def line9 : List Char := dataPrefix ++ ['Z']

/-- Counterexample to C9: this parsed line carries usage metadata (in the
nested response envelope), yet the translator emits no terminal chunk at
all — only the text content — because the code reads usage only from the
flat top level and the first candidate finishes with STOP. -/
theorem c9_counterexample :
    ev9.responseUsageMetadata.isSome = true ∧
    ¬ ((processLine cfg9 false line9).2.countP isFinalEmit = 1) ∧
    (processLine cfg9 false line9).2 = [Emit.content ['o', 'k']] :=
  ⟨rfl, by decide, by decide⟩

/-- The flat-envelope event of the C9 witness. -/
def evW9 : GParsed :=
  { candidates :=
      some [{ contentParts := some [{ text := some ['h', 'i'], thought := false }],
              parts := none, finishReason := some stopLit }],
    responseCandidates := none,
    usageMetadata := some { promptTokenCount := some 3, candidatesTokenCount := some 4 },
    responseUsageMetadata := none }

/-- Parser for the C9 witness session. -/
def cfgW9 : TransCfg := ⟨fun s => if s = ['W'] then some evW9 else none, true⟩

/-- The event-data line carrying payload "W". -/
def lineW9 : List Char := dataPrefix ++ ['W']

/-- Witness for the amended C9: a line with flat usage metadata emits
exactly one terminal chunk, last, with the usage summary. -/
theorem c9_witness :
    ((evW9.usageMetadata.isSome = true ∨
        ∃ c0 fr, (parsedCandidates evW9).head? = some c0 ∧ c0.finishReason = some fr ∧
          fr ≠ [] ∧ fr ≠ stopLit) →
      (processLine cfgW9 false lineW9).2 =
        (processCandidates cfgW9 false (parsedCandidates evW9)).2 ++
          [Emit.final (usageSummary evW9.usageMetadata)] ∧
      (processLine cfgW9 false lineW9).2.countP isFinalEmit = 1) ∧
    (¬ (evW9.usageMetadata.isSome = true ∨
        ∃ c0 fr, (parsedCandidates evW9).head? = some c0 ∧ c0.finishReason = some fr ∧
          fr ≠ [] ∧ fr ≠ stopLit) →
      (processLine cfgW9 false lineW9).2.countP isFinalEmit = 0) :=
  c9_amended_terminal_chunk cfgW9 false lineW9 evW9 (by decide) (by decide) (by decide)

end GeminiProxy
